import Mathlib

/-!
Shallow embedding of the `design-ant` batch PDF-analysis tool (Go).

Source files embedded: `main.go` (dispatcher, retry loop, aggregation),
`config.go` (price table), `api.go` (analyzeChunk), `pdf.go`
(splitPDFIntoChunks / getPageCount page loop).

Modelling choices: Go `int` token counters become `Int`; Go `float64`
cost arithmetic becomes `ℚ` (the source's constants 0.25, 1.25, 3.00,
15.00, 75.00 and the division by 1_000_000 are all exact, so the rational
model coincides with the algebraic content of the float computation);
Go `time.Duration` (int64 nanoseconds) becomes `Nat`; external effects
(file reads, HTTP calls, JSON decoding, pdfcpu extraction) become
explicit environment records carrying each call's result.
-/

namespace DesignAnt

/-- From `config.go`: `AnthropicPricing` — price per million input and
output tokens. -/
structure AnthropicPricing where
  InputPricePerMTokens : ℚ
  OutputPricePerMTokens : ℚ
  deriving DecidableEq, Repr

/-- From `config.go`: the `ModelPricing` map, embedded as an association
list in its source order. -/
def ModelPricing : List (String × AnthropicPricing) :=
  [ ("claude-3-5-haiku-20241022", ⟨1/4, 5/4⟩),
    ("claude-3-haiku-20240307", ⟨1/4, 5/4⟩),
    ("claude-3-5-sonnet-20241022", ⟨3, 15⟩),
    ("claude-3-opus-20240229", ⟨15, 75⟩) ]

/-- From `config.go`: `GetPricing` — map lookup with fallback to the
`claude-3-5-haiku-20241022` entry when the model name is unknown.  The
inner match mirrors Go map indexing of a key that is present. -/
def GetPricing (modelName : String) : AnthropicPricing :=
  match List.lookup modelName ModelPricing with
  | some pricing => pricing
  | none =>
    match List.lookup "claude-3-5-haiku-20241022" ModelPricing with
    | some pricing => pricing
    | none => ⟨0, 0⟩

/-- From `main.go` line 66: `chunkSize := 1`. -/
def chunkSize : Nat := 1

/-- From `main.go` line 92: `maxConcurrent := 4`. -/
def maxConcurrent : Nat := 4

/-- From `main.go` line 124: `maxRetries := 3`. -/
def maxRetries : Nat := 3

/-- From `main.go` line 125: `retryDelay := 2 * time.Second`, in
nanoseconds. -/
def retryDelay : Nat := 2 * 1000000000

/-- Whether `pat` occurs as a contiguous sublist of `s`. -/
def listContains (s pat : List Char) : Bool :=
  match s with
  | [] => pat.isEmpty
  | _ :: rest => List.isPrefixOf pat s || listContains rest pat

/-- `strings.Contains` on the character lists of the two strings. -/
def strContains (s pat : String) : Bool :=
  listContains s.toList pat.toList

/-- From `main.go` line 135: the transient-error classification —
`strings.Contains(err.Error(), "rate_limit") || strings.Contains(err.Error(), "429")`. -/
def isRateLimitError (e : String) : Bool :=
  strContains e "rate_limit" || strContains e "429"

/-- Result of one `analyzeChunk` call:
`(analysis, inputTokens, outputTokens, err)`.  `none` is Go `nil`. -/
structure CallOutcome where
  analysis : String
  inputTokens : Int
  outputTokens : Int
  error : Option String
  deriving DecidableEq, Repr

/-- The zero values the worker's variables hold before its retry loop
runs (`main.go` lines 121-123). -/
def CallOutcome.zero : CallOutcome := ⟨"", 0, 0, none⟩

/-- Trace of one worker's retry loop: the outcome left in the worker's
variables when the loop exits, the backoff waits it slept (in loop
order), and how many times it called the analysis function. -/
structure RetryTrace where
  outcome : CallOutcome
  waits : List Nat
  calls : Nat
  deriving DecidableEq, Repr

/-- From `main.go` lines 127-145: the retry loop, one iteration per
constructor step.  `f attempt` is the `analyzeChunk` call of the given
zero-based attempt; `fuel` is the number of loop iterations still
allowed (`maxRetries - attempt`), so `0 < fuel - 1` is the source's
`attempt < maxRetries-1` test for whether attempts remain. -/
def retryAux (f : Nat → CallOutcome) (d : Nat) : Nat → Nat → RetryTrace
  | _, 0 => ⟨CallOutcome.zero, [], 0⟩
  | attempt, fuel + 1 =>
    let r := f attempt
    match r.error with
    | none => ⟨r, [], 1⟩
    | some e =>
      if isRateLimitError e then
        if 0 < fuel then
          let rest := retryAux f d (attempt + 1) fuel
          ⟨rest.outcome, d * 2 ^ attempt :: rest.waits, rest.calls + 1⟩
        else ⟨r, [], 1⟩
      else ⟨r, [], 1⟩

/-- The worker's whole retry phase: run the loop from attempt 0 with
`R` iterations available and base delay `d`. -/
def runRetries (f : Nat → CallOutcome) (d R : Nat) : RetryTrace :=
  retryAux f d 0 R

/-- From `pdf.go` / `main.go`: `ChunkInfo` — path of the extracted
chunk PDF plus its 0-indexed page range. -/
structure ChunkInfo where
  Path : String
  StartPage : Nat
  EndPage : Nat
  deriving DecidableEq, Repr, Inhabited

/-- From the types file: `ChunkAnalysis` — one unit's recorded result.
`ProcessingTime` and `Timestamp` are wall-clock instrumentation with no
bearing on any claim; they are kept as fields (with the worker writing
an abstract placeholder) so the record shape matches the source. -/
structure ChunkAnalysis where
  ChunkNumber : Nat
  StartPage : Nat
  EndPage : Nat
  Analysis : String
  InputTokens : Int
  OutputTokens : Int
  InputCost : ℚ
  OutputCost : ℚ
  TotalCost : ℚ
  ProcessingTime : String
  Error : String
  deriving DecidableEq, Repr, Inhabited

/-- From `main.go` line 151:
`inputCost := float64(inputTokens) / 1_000_000 * pricing.InputPricePerMTokens`. -/
def unitInputCost (pricing : AnthropicPricing) (inputTokens : Int) : ℚ :=
  (inputTokens : ℚ) / 1000000 * pricing.InputPricePerMTokens

/-- From `main.go` line 152:
`outputCost := float64(outputTokens) / 1_000_000 * pricing.OutputPricePerMTokens`. -/
def unitOutputCost (pricing : AnthropicPricing) (outputTokens : Int) : ℚ :=
  (outputTokens : ℚ) / 1000000 * pricing.OutputPricePerMTokens

/-- From `main.go` lines 113-184: the body of one worker goroutine after
it has acquired its semaphore slot — run the retry loop, price the final
token counts, and build the `ChunkAnalysis` written to `results[index]`
(the `Error` field is set only when the final `err` is non-nil, exactly
as lines 168-169 do; a nil final error leaves the zero value `""`). -/
def processUnit (modelName : String) (f : Nat → CallOutcome)
    (index startPage endPage : Nat) : ChunkAnalysis :=
  let t := runRetries f retryDelay maxRetries
  let pricing := GetPricing modelName
  let inputCost := unitInputCost pricing t.outcome.inputTokens
  let outputCost := unitOutputCost pricing t.outcome.outputTokens
  { ChunkNumber := index + 1
    StartPage := startPage + 1
    EndPage := endPage + 1
    Analysis := t.outcome.analysis
    InputTokens := t.outcome.inputTokens
    OutputTokens := t.outcome.outputTokens
    InputCost := inputCost
    OutputCost := outputCost
    TotalCost := inputCost + outputCost
    ProcessingTime := ""
    Error := match t.outcome.error with
      | none => ""
      | some e => e }

/-!
### The concurrent dispatcher as a transition system

`main.go` lines 96-188: one goroutine per chunk, a buffered channel
`semaphore` of capacity `maxConcurrent` as the concurrency gate, and a
pre-sized slice `results` written index-addressed under a mutex.  A
worker is "in flight" between its semaphore acquire (line 110) and its
deferred release, and it keeps its slot across all retry attempts.  The
transition system below has one phase per worker: `acquire` is enabled
only while fewer than `C` workers are running (channel send blocks at
capacity), `retry` models a further attempt taken while still holding
the slot, and `finish` performs the single index-addressed write of the
worker's result and releases the slot.
-/

/-- Phase of one worker goroutine. -/
inductive WorkerPhase where
  | idle
  | running (attempt : Nat)
  | done
  deriving DecidableEq, Repr

/-- Whether a phase holds a semaphore slot (an analysis call in flight). -/
def WorkerPhase.isRunning : WorkerPhase → Bool
  | .running _ => true
  | _ => false

/-- Number of workers currently holding a slot (analysis calls in flight). -/
def countRunning (phases : List WorkerPhase) : Nat :=
  phases.countP WorkerPhase.isRunning

/-- Shared state of the dispatcher: each worker's phase and the
pre-sized `results` slice. -/
structure DispatchState where
  phases : List WorkerPhase
  results : List ChunkAnalysis
  deriving DecidableEq, Repr

/-- `main.go` line 97: `results := make([]ChunkAnalysis, len(chunks))` —
all workers idle, the results slice pre-sized with zero values. -/
def initState (n : Nat) : DispatchState :=
  ⟨List.replicate n WorkerPhase.idle, List.replicate n default⟩

/-- One scheduler step of the dispatcher, for concurrency limit `C` and
per-worker result `work i` (in the source, `work i` is `processUnit`
applied to unit `i`'s chunk). -/
inductive Step (C : Nat) (work : Nat → ChunkAnalysis) :
    DispatchState → DispatchState → Prop
  | acquire (s : DispatchState) (i : Nat)
      (hp : s.phases[i]? = some WorkerPhase.idle)
      (hC : countRunning s.phases < C) :
      Step C work s ⟨s.phases.set i (WorkerPhase.running 0), s.results⟩
  | retry (s : DispatchState) (i k : Nat)
      (hp : s.phases[i]? = some (WorkerPhase.running k)) :
      Step C work s ⟨s.phases.set i (WorkerPhase.running (k + 1)), s.results⟩
  | finish (s : DispatchState) (i k : Nat)
      (hp : s.phases[i]? = some (WorkerPhase.running k)) :
      Step C work s ⟨s.phases.set i WorkerPhase.done, s.results.set i (work i)⟩

/-- States reachable by the dispatcher from some initial batch. -/
inductive Reach (C : Nat) (work : Nat → ChunkAnalysis) : DispatchState → Prop
  | init (n : Nat) : Reach C work (initState n)
  | step {s t : DispatchState} :
      Reach C work s → Step C work s t → Reach C work t

/-- Dispatcher invariant: the gate bound holds, the results slice keeps
its pre-sized length, and every finished worker's slot holds its own
result. -/
def DispatchInv (C : Nat) (work : Nat → ChunkAnalysis)
    (s : DispatchState) : Prop :=
  countRunning s.phases ≤ C ∧
  s.results.length = s.phases.length ∧
  ∀ i, s.phases[i]? = some WorkerPhase.done → s.results[i]? = some (work i)

lemma step_inv {C : Nat} {work : Nat → ChunkAnalysis} {s t : DispatchState}
    (hs : Step C work s t) (ih : DispatchInv C work s) :
    DispatchInv C work t := by
  obtain ⟨ihC, ihlen, ihdone⟩ := ih
  cases hs with
  | acquire i hp hC =>
    rcases List.getElem?_eq_some_iff.mp hp with ⟨hlt, hval⟩
    refine ⟨?_, by simpa using ihlen, ?_⟩
    · have hset := List.countP_set WorkerPhase.isRunning s.phases i
        (WorkerPhase.running 0) hlt
      simp only [countRunning] at *
      rw [hset, hval]
      have e1 : (if WorkerPhase.isRunning WorkerPhase.idle = true
          then (1 : Nat) else 0) = 0 := rfl
      have e2 : (if WorkerPhase.isRunning (WorkerPhase.running 0) = true
          then (1 : Nat) else 0) = 1 := rfl
      rw [e1, e2]
      omega
    · intro j hj
      by_cases hij : i = j
      · subst hij
        rw [List.getElem?_set_self hlt] at hj
        simp at hj
      · rw [List.getElem?_set_ne hij] at hj
        exact ihdone j hj
  | retry i k hp =>
    rcases List.getElem?_eq_some_iff.mp hp with ⟨hlt, hval⟩
    refine ⟨?_, by simpa using ihlen, ?_⟩
    · have hset := List.countP_set WorkerPhase.isRunning s.phases i
        (WorkerPhase.running (k + 1)) hlt
      simp only [countRunning] at *
      rw [hset, hval]
      have hb := List.boole_getElem_le_countP WorkerPhase.isRunning s.phases i hlt
      rw [hval] at hb
      have e1 : (if WorkerPhase.isRunning (WorkerPhase.running k) = true
          then (1 : Nat) else 0) = 1 := rfl
      have e2 : (if WorkerPhase.isRunning (WorkerPhase.running (k + 1)) = true
          then (1 : Nat) else 0) = 1 := rfl
      rw [e1] at hb
      rw [e1, e2]
      omega
    · intro j hj
      by_cases hij : i = j
      · subst hij
        rw [List.getElem?_set_self hlt] at hj
        simp at hj
      · rw [List.getElem?_set_ne hij] at hj
        exact ihdone j hj
  | finish i k hp =>
    rcases List.getElem?_eq_some_iff.mp hp with ⟨hlt, hval⟩
    have hltr : i < s.results.length := by rw [ihlen]; exact hlt
    refine ⟨?_, by simpa using ihlen, ?_⟩
    · have hset := List.countP_set WorkerPhase.isRunning s.phases i
        WorkerPhase.done hlt
      simp only [countRunning] at *
      rw [hset, hval]
      have e1 : (if WorkerPhase.isRunning (WorkerPhase.running k) = true
          then (1 : Nat) else 0) = 1 := rfl
      have e2 : (if WorkerPhase.isRunning WorkerPhase.done = true
          then (1 : Nat) else 0) = 0 := rfl
      rw [e1, e2]
      omega
    · intro j hj
      by_cases hij : i = j
      · subst hij
        exact List.getElem?_set_self hltr
      · rw [List.getElem?_set_ne hij] at hj
        rw [List.getElem?_set_ne hij]
        exact ihdone j hj

lemma reach_inv {C : Nat} {work : Nat → ChunkAnalysis} {s : DispatchState}
    (h : Reach C work s) : DispatchInv C work s := by
  induction h with
  | init n =>
    refine ⟨?_, by simp [initState], ?_⟩
    · simp [initState, countRunning, List.countP_replicate, WorkerPhase.isRunning]
    · intro i hi
      rcases List.getElem?_eq_some_iff.mp hi with ⟨hlt, hval⟩
      simp [initState] at hlt hval
  | step _ hs ih => exact step_inv hs ih

/-- From `main.go` lines 96-188 as a whole: the value of `results` after
`wg.Wait()`.  Worker `i` writes `processUnit` of chunk `i` at index `i`;
by `reach_inv` every terminal state of the transition system holds
exactly this list, independent of scheduling, so the joined batch is
embedded as the index-ordered list itself. -/
def dispatchResults (modelName : String) (attempt : Nat → Nat → CallOutcome)
    (chunks : List ChunkInfo) : List ChunkAnalysis :=
  chunks.mapIdx fun i c => processUnit modelName (attempt i) i c.StartPage c.EndPage

/-- Running totals accumulated by `main.go` lines 191-199. -/
structure ChunkTotals where
  inputTokens : Int
  outputTokens : Int
  inputCost : ℚ
  outputCost : ℚ
  deriving DecidableEq, Repr

/-- From `main.go` lines 191-199: the aggregation loop — a left fold of
the per-unit fields starting from zeroes. -/
def chunkTotals (results : List ChunkAnalysis) : ChunkTotals :=
  results.foldl
    (fun acc r =>
      ⟨acc.inputTokens + r.InputTokens, acc.outputTokens + r.OutputTokens,
       acc.inputCost + r.InputCost, acc.outputCost + r.OutputCost⟩)
    ⟨0, 0, 0, 0⟩

/-- From the types file: `ConsolidatedAnalysis` (always nil in this
program, see `main.go` line 223). -/
structure ConsolidatedAnalysis where
  Analysis : String
  InputTokens : Int
  OutputTokens : Int
  InputCost : ℚ
  OutputCost : ℚ
  TotalCost : ℚ
  deriving DecidableEq, Repr

/-- From the types file: `FullAnalysisResult` — the aggregate batch
result (time fields again abstracted). -/
structure FullAnalysisResult where
  PDFPath : String
  TotalPages : Nat
  TotalChunks : Nat
  Chunks : List ChunkAnalysis
  Consolidated : Option ConsolidatedAnalysis
  TotalInputTokens : Int
  TotalOutputTokens : Int
  TotalInputCost : ℚ
  TotalOutputCost : ℚ
  TotalCost : ℚ
  deriving DecidableEq, Repr

/-- From `main.go` lines 211-231: build the `FullAnalysisResult` from
the chunk totals (`totalCost = totalInputCost + totalOutputCost`,
line 228). -/
def mkFullResult (pdfPath : String) (totalPages : Nat)
    (chunks : List ChunkInfo) (results : List ChunkAnalysis) :
    FullAnalysisResult :=
  let t := chunkTotals results
  { PDFPath := pdfPath
    TotalPages := totalPages
    TotalChunks := chunks.length
    Chunks := results
    Consolidated := none
    TotalInputTokens := t.inputTokens
    TotalOutputTokens := t.outputTokens
    TotalInputCost := t.inputCost
    TotalOutputCost := t.outputCost
    TotalCost := t.inputCost + t.outputCost }

/-- From `pdf.go` lines 17-63: the chunking loop of
`splitPDFIntoChunks`.  `extract p` is the pdfcpu `ExtractPages` call for
the chunk starting at 0-indexed page `p`, yielding the created file's
path or an error (an error aborts the whole function, line 38).  `fuel`
bounds the iterations; `totalPages` iterations suffice whenever
`chunkSize ≥ 1`, which is how the program calls it (`chunkSize = 1`). -/
def splitAux (extract : Nat → Except String String)
    (chunkSize totalPages : Nat) : Nat → Nat → Except String (List ChunkInfo)
  | _, 0 => Except.ok []
  | startPage, fuel + 1 =>
    if startPage < totalPages then
      let endPage := min (startPage + chunkSize) totalPages
      match extract startPage with
      | Except.error e => Except.error e
      | Except.ok path =>
        match splitAux extract chunkSize totalPages (startPage + chunkSize) fuel with
        | Except.error e => Except.error e
        | Except.ok rest =>
          Except.ok (⟨path, startPage, endPage - 1⟩ :: rest)
    else Except.ok []

/-- `pdf.go` `splitPDFIntoChunks`: run the loop from `startPage = 0`. -/
def splitPDFIntoChunks (extract : Nat → Except String String)
    (chunkSize totalPages : Nat) : Except String (List ChunkInfo) :=
  splitAux extract chunkSize totalPages 0 totalPages

/-- The external effects `main` observes, one field per fallible
collaborator call: the positional arguments after the program name, the
`ANTHROPIC_API_KEY` value, whether `os.Stat` finds the PDF, the
`getPageCount` result, the `os.MkdirTemp` result, the per-chunk
`ExtractPages` results, and chunk `i`'s attempt-`j` `analyzeChunk`
result. -/
structure MainEnv where
  args : List String
  apiKey : String
  pdfExists : Bool
  pageCount : Except String Nat
  mkTempDir : Except String String
  extract : Nat → Except String String
  attempt : Nat → Nat → CallOutcome

/-- Exit behaviour of `main`: `fatal` is a `log.Fatal*` call (exit
code 1), `completed` is a run that reaches the end of `main` (exit
code 0 — a failed `saveJSONOutput` only logs a warning, lines 251-252). -/
inductive MainOutcome where
  | fatal (msg : String)
  | completed (result : FullAnalysisResult)
  deriving DecidableEq

/-- From `main.go` line 32: the hard-coded model. -/
def mainModelName : String := "claude-3-5-haiku-20241022"

/-- From `main.go` lines 16-259: the control flow of `main` — the
setup checks in source order, each failure a `log.Fatal`, then split,
dispatch, aggregate. -/
def runMain (env : MainEnv) : MainOutcome :=
  if env.args.length < 1 then
    MainOutcome.fatal "Usage: go run main.go <pdf-file>"
  else if env.apiKey = "" then
    MainOutcome.fatal "Error: ANTHROPIC_API_KEY not found in environment variables"
  else if !env.pdfExists then
    MainOutcome.fatal "Error: PDF file not found"
  else
    match env.pageCount with
    | Except.error e => MainOutcome.fatal ("Error getting page count: " ++ e)
    | Except.ok totalPages =>
      match env.mkTempDir with
      | Except.error e => MainOutcome.fatal ("Error creating temp directory: " ++ e)
      | Except.ok _ =>
        match splitPDFIntoChunks env.extract chunkSize totalPages with
        | Except.error e => MainOutcome.fatal ("Error splitting PDF: " ++ e)
        | Except.ok chunks =>
          let results := dispatchResults mainModelName env.attempt chunks
          MainOutcome.completed
            (mkFullResult (env.args.getD 0 "") totalPages chunks results)

/-- Process exit code: `log.Fatal` exits 1, falling off `main` exits 0. -/
def exitCode (env : MainEnv) : Nat :=
  match runMain env with
  | MainOutcome.fatal _ => 1
  | MainOutcome.completed _ => 0

/-!
### `analyzeChunk` (`api.go` lines 15-102)

The call's external effects become one environment record: the chunk
file read, the JSON encode of the request, request construction, the
HTTP round trip, reading the response body, the response status, and
the JSON decode of the body.  The function's control flow is translated
branch for branch; its value is a `CallOutcome`, i.e. the source's
`(string, int, int, error)` quadruple.
-/

/-- The decoded response shape of `api.go` lines 82-90: the text of
each content block and the usage counters. -/
structure ApiResponse where
  content : List String
  usage_input_tokens : Int
  usage_output_tokens : Int
  deriving DecidableEq, Repr

/-- External effects of one `analyzeChunk` call. -/
structure HttpEnv where
  readFileRes : Except String Unit
  marshalRes : Except String Unit
  newRequestRes : Except String Unit
  doRes : Except String Unit
  readBodyRes : Except String String
  statusCode : Nat
  unmarshal : String → Except String ApiResponse

/-- From `api.go` lines 15-102: `analyzeChunk`, branch for branch.
Every early return carries `("", 0, 0, err)`; the success return
carries the first content block's text (or `""` when there is none) and
the usage counters. -/
def analyzeChunk (env : HttpEnv) : CallOutcome :=
  match env.readFileRes with
  | Except.error e => ⟨"", 0, 0, some ("error reading PDF chunk: " ++ e)⟩
  | Except.ok _ =>
    match env.marshalRes with
    | Except.error e => ⟨"", 0, 0, some ("error marshaling request: " ++ e)⟩
    | Except.ok _ =>
      match env.newRequestRes with
      | Except.error e => ⟨"", 0, 0, some ("error creating request: " ++ e)⟩
      | Except.ok _ =>
        match env.doRes with
        | Except.error e => ⟨"", 0, 0, some ("error making request: " ++ e)⟩
        | Except.ok _ =>
          match env.readBodyRes with
          | Except.error e => ⟨"", 0, 0, some ("error reading response: " ++ e)⟩
          | Except.ok body =>
            if env.statusCode ≠ 200 then
              ⟨"", 0, 0, some ("API error (status " ++ toString env.statusCode ++ "): " ++ body)⟩
            else
              match env.unmarshal body with
              | Except.error e => ⟨"", 0, 0, some ("error parsing response: " ++ e)⟩
              | Except.ok resp =>
                ⟨resp.content.headD "", resp.usage_input_tokens,
                 resp.usage_output_tokens, none⟩

/-!
### Behaviour of the retry loop
-/

lemma retryAux_step_none (f : Nat → CallOutcome) (d a fuel : Nat)
    (h : (f a).error = none) :
    retryAux f d a (fuel + 1) = ⟨f a, [], 1⟩ := by
  simp [retryAux, h]

lemma retryAux_step_rl (f : Nat → CallOutcome) (d a fuel : Nat) (e : String)
    (h : (f a).error = some e) (hrl : isRateLimitError e = true)
    (hf : 0 < fuel) :
    retryAux f d a (fuel + 1) =
      ⟨(retryAux f d (a + 1) fuel).outcome,
       d * 2 ^ a :: (retryAux f d (a + 1) fuel).waits,
       (retryAux f d (a + 1) fuel).calls + 1⟩ := by
  simp [retryAux, h, hrl, hf]

lemma retryAux_step_rl_last (f : Nat → CallOutcome) (d a : Nat) (e : String)
    (h : (f a).error = some e) (hrl : isRateLimitError e = true) :
    retryAux f d a 1 = ⟨f a, [], 1⟩ := by
  simp [retryAux, h, hrl]

lemma retryAux_step_perm (f : Nat → CallOutcome) (d a fuel : Nat) (e : String)
    (h : (f a).error = some e) (hrl : isRateLimitError e = false) :
    retryAux f d a (fuel + 1) = ⟨f a, [], 1⟩ := by
  simp [retryAux, h, hrl]

lemma retryAux_success (f : Nat → CallOutcome) (d : Nat) :
    ∀ (k a fuel : Nat), k < fuel →
      (∀ j, j < k → ∃ e, (f (a + j)).error = some e ∧ isRateLimitError e = true) →
      (f (a + k)).error = none →
      retryAux f d a fuel =
        ⟨f (a + k), (List.range k).map (fun j => d * 2 ^ (a + j)), k + 1⟩ := by
  intro k
  induction k with
  | zero =>
    intro a fuel hk hfail hsucc
    obtain ⟨m, rfl⟩ : ∃ m, fuel = m + 1 := ⟨fuel - 1, by omega⟩
    have hs : (f a).error = none := by simpa using hsucc
    rw [retryAux_step_none f d a m hs]
    simp
  | succ k ih =>
    intro a fuel hk hfail hsucc
    obtain ⟨m, rfl⟩ : ∃ m, fuel = m + 1 := ⟨fuel - 1, by omega⟩
    obtain ⟨e, he, hrl⟩ := hfail 0 (Nat.succ_pos k)
    have he0 : (f a).error = some e := by simpa using he
    have hm : 0 < m := by omega
    have ihapp := ih (a + 1) m (by omega)
      (fun j hj => by
        obtain ⟨e1, he1, hrl1⟩ := hfail (j + 1) (by omega)
        exact ⟨e1, by rw [show a + 1 + j = a + (j + 1) by omega]; exact he1, hrl1⟩)
      (by rw [show a + 1 + k = a + (k + 1) by omega]; exact hsucc)
    rw [retryAux_step_rl f d a m e he0 hrl hm, ihapp]
    simp only [RetryTrace.mk.injEq]
    refine ⟨congrArg f (by omega), ?_, trivial⟩
    rw [List.range_succ_eq_map, List.map_cons, List.map_map]
    refine congrArg₂ List.cons (by simp) ?_
    refine List.map_congr_left fun j hj => ?_
    simp only [Function.comp_apply]
    exact congrArg (fun t => d * 2 ^ t) (by omega)

lemma retryAux_allfail (f : Nat → CallOutcome) (d : Nat) :
    ∀ (fuel a : Nat), 1 ≤ fuel →
      (∀ j, j < fuel → ∃ e, (f (a + j)).error = some e ∧ isRateLimitError e = true) →
      retryAux f d a fuel =
        ⟨f (a + (fuel - 1)),
         (List.range (fuel - 1)).map (fun j => d * 2 ^ (a + j)), fuel⟩ := by
  intro fuel
  induction fuel with
  | zero => intro a h; omega
  | succ m ih =>
    intro a _ hfail
    obtain ⟨e, he, hrl⟩ := hfail 0 (Nat.succ_pos m)
    have he0 : (f a).error = some e := by simpa using he
    match m, ih with
    | 0, _ =>
      rw [retryAux_step_rl_last f d a e he0 hrl]
      simp
    | m + 1, ih =>
      have ihapp := ih (a + 1) (by omega)
        (fun j hj => by
          obtain ⟨e1, he1, hrl1⟩ := hfail (j + 1) (by omega)
          exact ⟨e1, by rw [show a + 1 + j = a + (j + 1) by omega]; exact he1, hrl1⟩)
      have hm : 0 < m + 1 := by omega
      rw [retryAux_step_rl f d a (m + 1) e he0 hrl hm, ihapp]
      simp only [RetryTrace.mk.injEq, Nat.add_sub_cancel]
      refine ⟨congrArg f (by omega), ?_, trivial⟩
      rw [List.range_succ_eq_map, List.map_cons, List.map_map]
      refine congrArg₂ List.cons (by simp) ?_
      refine List.map_congr_left fun j hj => ?_
      simp only [Function.comp_apply]
      exact congrArg (fun t => d * 2 ^ t) (by omega)

/-!
### Aggregation lemmas
-/

lemma chunkTotals_go (l : List ChunkAnalysis) :
    ∀ acc : ChunkTotals,
      l.foldl
        (fun acc r =>
          ⟨acc.inputTokens + r.InputTokens, acc.outputTokens + r.OutputTokens,
           acc.inputCost + r.InputCost, acc.outputCost + r.OutputCost⟩)
        acc =
      ⟨acc.inputTokens + (l.map ChunkAnalysis.InputTokens).sum,
       acc.outputTokens + (l.map ChunkAnalysis.OutputTokens).sum,
       acc.inputCost + (l.map ChunkAnalysis.InputCost).sum,
       acc.outputCost + (l.map ChunkAnalysis.OutputCost).sum⟩ := by
  induction l with
  | nil => intro acc; simp
  | cons r t ih =>
    intro acc
    simp only [List.foldl_cons, List.map_cons, List.sum_cons, ih]
    simp only [ChunkTotals.mk.injEq]
    refine ⟨by ring, by ring, by ring, by ring⟩

lemma chunkTotals_eq (results : List ChunkAnalysis) :
    chunkTotals results =
      ⟨(results.map ChunkAnalysis.InputTokens).sum,
       (results.map ChunkAnalysis.OutputTokens).sum,
       (results.map ChunkAnalysis.InputCost).sum,
       (results.map ChunkAnalysis.OutputCost).sum⟩ := by
  have h := chunkTotals_go results ⟨0, 0, 0, 0⟩
  simpa [chunkTotals] using h

lemma sum_map_cost_split (l : List ChunkAnalysis) :
    (l.map fun r => r.InputCost + r.OutputCost).sum =
      (l.map ChunkAnalysis.InputCost).sum + (l.map ChunkAnalysis.OutputCost).sum := by
  induction l with
  | nil => simp
  | cons r t ih => simp [ih]; ring

/-!
### Claim theorems
-/

/-- C1: for every batch of N ≥ 0 units dispatched under any concurrency
limit C ≥ 1, once every worker has finished, the result sequence has
exactly N entries and entry `i` is worker `i`'s own result — the writes
are index-addressed (`results[index] = ...`, never an append), so the
output order is by unit index regardless of C and of the order in which
the scheduler ran the workers (`Reach` quantifies over every
interleaving the semaphore admits). -/
theorem dispatch_results_indexed (C : Nat) (work : Nat → ChunkAnalysis)
    (s : DispatchState) (hC : 1 ≤ C) (hreach : Reach C work s)
    (hdone : ∀ i, i < s.phases.length → s.phases[i]? = some WorkerPhase.done) :
    s.results.length = s.phases.length ∧
    ∀ i, i < s.phases.length → s.results[i]? = some (work i) := by
  obtain ⟨-, hlen, hdoneinv⟩ := reach_inv hreach
  exact ⟨hlen, fun i hi => hdoneinv i (hdone i hi)⟩

theorem dispatch_results_indexed_witness :
    (DispatchState.mk [WorkerPhase.done] [default]).results.length = 1 ∧
    (DispatchState.mk [WorkerPhase.done] [default]).results[0]? =
      some (default : ChunkAnalysis) := by
  have h0 : Reach 1 (fun _ => default) (initState 1) := Reach.init 1
  have h1 : Reach 1 (fun _ => default)
      (DispatchState.mk [WorkerPhase.running 0] [default]) :=
    Reach.step h0 (Step.acquire (initState 1) 0 rfl (by decide))
  have h2 : Reach 1 (fun _ => default)
      (DispatchState.mk [WorkerPhase.done] [default]) :=
    Reach.step h1
      (Step.finish (DispatchState.mk [WorkerPhase.running 0] [default]) 0 0 rfl)
  have h := dispatch_results_indexed 1 (fun _ => default)
    (DispatchState.mk [WorkerPhase.done] [default]) (by decide) h2 (by decide)
  exact ⟨h.1, h.2 0 (by decide)⟩

/-- C2: a unit whose analysis calls fail with transient (rate-limit)
errors exactly `k < R` times and then succeed ends the retry loop with
the successful outcome, no error, and `k + 1` calls; a unit whose `R`
attempts all fail transiently ends with the last attempt's outcome (its
error) after `R` calls; and under the program's own retry budget
(`maxRetries`) the recorded `ChunkAnalysis` of a unit that recovers has
an empty `Error` field and the final attempt's token counts. -/
theorem retry_transient_semantics (f : Nat → CallOutcome) (d R k : Nat)
    (hfail : ∀ j, j < k → ∃ e, (f j).error = some e ∧ isRateLimitError e = true) :
    (k < R → (f k).error = none →
      (runRetries f d R).outcome = f k ∧
      (runRetries f d R).outcome.error = none ∧
      (runRetries f d R).calls = k + 1) ∧
    (k = R → 1 ≤ R →
      (runRetries f d R).outcome = f (R - 1) ∧
      (runRetries f d R).calls = R) ∧
    (k < maxRetries → (f k).error = none → ∀ modelName index sp ep,
      (processUnit modelName f index sp ep).Error = "" ∧
      (processUnit modelName f index sp ep).InputTokens = (f k).inputTokens ∧
      (processUnit modelName f index sp ep).OutputTokens = (f k).outputTokens) := by
  refine ⟨?_, ?_, ?_⟩
  · intro hkR hsucc
    have h := retryAux_success f d k 0 R hkR
      (fun j hj => by rw [Nat.zero_add]; exact hfail j hj)
      (by rw [Nat.zero_add]; exact hsucc)
    refine ⟨by simp [runRetries, h], by simp [runRetries, h, hsucc], by simp [runRetries, h]⟩
  · intro hkR hR
    subst hkR
    have h := retryAux_allfail f d k 0 hR
      (fun j hj => by rw [Nat.zero_add]; exact hfail j hj)
    refine ⟨by simp [runRetries, h], by simp [runRetries, h]⟩
  · intro hkR hsucc modelName index sp ep
    have h := retryAux_success f retryDelay k 0 maxRetries hkR
      (fun j hj => by rw [Nat.zero_add]; exact hfail j hj)
      (by rw [Nat.zero_add]; exact hsucc)
    have ht : runRetries f retryDelay maxRetries = ⟨f k, (List.range k).map
        (fun j => retryDelay * 2 ^ (0 + j)), k + 1⟩ := by
      simpa [runRetries] using h
    refine ⟨?_, ?_, ?_⟩ <;> simp [processUnit, ht, hsucc]

def fTransient : Nat → CallOutcome := fun j =>
  if j = 0 then ⟨"", 0, 0, some "rate_limit hit"⟩
  else ⟨"page analysis text", 100, 50, none⟩

theorem retry_transient_semantics_witness :
    (runRetries fTransient 2 3).outcome = fTransient 1 ∧
    (runRetries fTransient 2 3).outcome.error = none ∧
    (runRetries fTransient 2 3).calls = 2 := by
  have hfail : ∀ j, j < 1 →
      ∃ e, (fTransient j).error = some e ∧ isRateLimitError e = true := by
    intro j hj
    have hj0 : j = 0 := by omega
    subst hj0
    exact ⟨"rate_limit hit", rfl, by decide⟩
  exact (retry_transient_semantics fTransient 2 3 1 hfail).1 (by decide) rfl

/-- C3: a unit whose first attempt fails with a permanent
(non-rate-limit) error breaks out of the loop at once: the analysis
function is called exactly once, the loop ends with that first outcome,
and the worker records the error in the unit's `ChunkAnalysis`. -/
theorem permanent_no_retry (f : Nat → CallOutcome) (d R : Nat) (e : String)
    (hR : 1 ≤ R) (h0 : (f 0).error = some e)
    (hperm : isRateLimitError e = false) :
    (runRetries f d R).outcome = f 0 ∧
    (runRetries f d R).calls = 1 ∧
    ∀ modelName index sp ep,
      (processUnit modelName f index sp ep).Error = e := by
  obtain ⟨m, rfl⟩ : ∃ m, R = m + 1 := ⟨R - 1, by omega⟩
  have h : runRetries f d (m + 1) = ⟨f 0, [], 1⟩ := by
    rw [runRetries, retryAux_step_perm f d 0 m e h0 hperm]
  have h3 : runRetries f retryDelay maxRetries = ⟨f 0, [], 1⟩ := by
    rw [runRetries, show maxRetries = 2 + 1 from rfl,
      retryAux_step_perm f retryDelay 0 2 e h0 hperm]
  refine ⟨by simp [h], by simp [h], ?_⟩
  intro modelName index sp ep
  simp [processUnit, h3, h0]

def fPermanent : Nat → CallOutcome := fun _ =>
  ⟨"", 0, 0, some "API error (status 500): internal"⟩

theorem permanent_no_retry_witness :
    (runRetries fPermanent 2 3).outcome = fPermanent 0 ∧
    (runRetries fPermanent 2 3).calls = 1 ∧
    (processUnit mainModelName fPermanent 0 0 0).Error =
      "API error (status 500): internal" := by
  have h := permanent_no_retry fPermanent 2 3 "API error (status 500): internal"
    (by decide) rfl (by decide)
  exact ⟨h.1, h.2.1, h.2.2 mainModelName 0 0 0⟩

/-- C4: the batch totals are the fold of the per-unit results: total
input tokens are the sum of per-unit input tokens, total output tokens
the sum of per-unit output tokens, and the total cost the sum of
per-unit total costs (each worker writes
`TotalCost = InputCost + OutputCost`, which is the hypothesis). -/
theorem aggregate_totals_fold (pdfPath : String) (totalPages : Nat)
    (chunks : List ChunkInfo) (results : List ChunkAnalysis)
    (h : ∀ r ∈ results, r.TotalCost = r.InputCost + r.OutputCost) :
    (mkFullResult pdfPath totalPages chunks results).TotalInputTokens =
      (results.map ChunkAnalysis.InputTokens).sum ∧
    (mkFullResult pdfPath totalPages chunks results).TotalOutputTokens =
      (results.map ChunkAnalysis.OutputTokens).sum ∧
    (mkFullResult pdfPath totalPages chunks results).TotalCost =
      (results.map ChunkAnalysis.TotalCost).sum := by
  refine ⟨by simp [mkFullResult, chunkTotals_eq], by simp [mkFullResult, chunkTotals_eq], ?_⟩
  have hmap : results.map ChunkAnalysis.TotalCost =
      results.map fun r => r.InputCost + r.OutputCost :=
    List.map_congr_left h
  simp [mkFullResult, chunkTotals_eq, hmap, sum_map_cost_split]

def sampleResult : ChunkAnalysis :=
  ⟨1, 1, 1, "text", 100, 50, 1/10, 2/10, 3/10, "", ""⟩

theorem aggregate_totals_fold_witness :
    (mkFullResult "doc.pdf" 1 [] [sampleResult]).TotalInputTokens =
      ([sampleResult].map ChunkAnalysis.InputTokens).sum ∧
    (mkFullResult "doc.pdf" 1 [] [sampleResult]).TotalOutputTokens =
      ([sampleResult].map ChunkAnalysis.OutputTokens).sum ∧
    (mkFullResult "doc.pdf" 1 [] [sampleResult]).TotalCost =
      ([sampleResult].map ChunkAnalysis.TotalCost).sum :=
  aggregate_totals_fold "doc.pdf" 1 [] [sampleResult] (by
    intro r hr
    rw [List.mem_singleton] at hr
    subst hr
    norm_num [sampleResult])

/-- C5: every recorded unit cost follows
`inputCost = inputTokens / 1_000_000 * pricePerMInput`,
`outputCost = outputTokens / 1_000_000 * pricePerMOutput`,
`totalCost = inputCost + outputCost`; and for unit token counts
`[(100,50),(200,100)]` under a price entry `(1.0, 2.0)` per million
tokens, the aggregated total cost equals
`(300/1e6)*1.0 + (150/1e6)*2.0`. -/
theorem cost_formula_and_example :
    (∀ (modelName : String) (f : Nat → CallOutcome) (index sp ep : Nat),
      (processUnit modelName f index sp ep).InputCost =
        ((processUnit modelName f index sp ep).InputTokens : ℚ) / 1000000 *
          (GetPricing modelName).InputPricePerMTokens ∧
      (processUnit modelName f index sp ep).OutputCost =
        ((processUnit modelName f index sp ep).OutputTokens : ℚ) / 1000000 *
          (GetPricing modelName).OutputPricePerMTokens ∧
      (processUnit modelName f index sp ep).TotalCost =
        (processUnit modelName f index sp ep).InputCost +
          (processUnit modelName f index sp ep).OutputCost) ∧
    (mkFullResult "" 0 []
      [ ⟨1, 1, 1, "", 100, 50, unitInputCost ⟨1, 2⟩ 100, unitOutputCost ⟨1, 2⟩ 50,
          unitInputCost ⟨1, 2⟩ 100 + unitOutputCost ⟨1, 2⟩ 50, "", ""⟩,
        ⟨2, 2, 2, "", 200, 100, unitInputCost ⟨1, 2⟩ 200, unitOutputCost ⟨1, 2⟩ 100,
          unitInputCost ⟨1, 2⟩ 200 + unitOutputCost ⟨1, 2⟩ 100, "", ""⟩ ]).TotalCost =
      (300 : ℚ) / 1000000 * 1 + (150 : ℚ) / 1000000 * 2 := by
  constructor
  · intro modelName f index sp ep
    exact ⟨rfl, rfl, rfl⟩
  · norm_num [mkFullResult, chunkTotals, unitInputCost, unitOutputCost]

/-- C6: with the dispatcher's configured gate capacity
(`maxConcurrent = 4`), no reachable state of the batch has more than 4
workers holding a slot — i.e. at no point are more than C analysis
calls in flight; the `acquire` transition is enabled only below
capacity and a worker's slot is released only by `finish`, after its
final attempt (`retry` keeps the slot). -/
theorem concurrency_gate_bound (work : Nat → ChunkAnalysis)
    (s : DispatchState) (hreach : Reach maxConcurrent work s) :
    countRunning s.phases ≤ maxConcurrent :=
  (reach_inv hreach).1

theorem concurrency_gate_bound_witness :
    countRunning [WorkerPhase.running 0, WorkerPhase.running 0,
      WorkerPhase.running 0, WorkerPhase.running 0] ≤ maxConcurrent := by
  have h0 : Reach maxConcurrent (fun _ => default) (initState 4) := Reach.init 4
  have h1 := Reach.step h0 (Step.acquire (initState 4) 0 rfl (by decide))
  have h2 := Reach.step h1 (Step.acquire
    (DispatchState.mk [WorkerPhase.running 0, WorkerPhase.idle, WorkerPhase.idle,
      WorkerPhase.idle] (List.replicate 4 default)) 1 rfl (by decide))
  have h3 := Reach.step h2 (Step.acquire
    (DispatchState.mk [WorkerPhase.running 0, WorkerPhase.running 0,
      WorkerPhase.idle, WorkerPhase.idle] (List.replicate 4 default)) 2 rfl (by decide))
  have h4 := Reach.step h3 (Step.acquire
    (DispatchState.mk [WorkerPhase.running 0, WorkerPhase.running 0,
      WorkerPhase.running 0, WorkerPhase.idle] (List.replicate 4 default)) 3 rfl (by decide))
  exact concurrency_gate_bound (fun _ => default)
    (DispatchState.mk [WorkerPhase.running 0, WorkerPhase.running 0,
      WorkerPhase.running 0, WorkerPhase.running 0] (List.replicate 4 default)) h4

/-- C7: each backoff wait equals `d * 2^attempt` for the zero-based
attempt that just failed: a unit that fails transiently `k` times
before succeeding sleeps `d·2^0, d·2^1, …, d·2^(k-1)` (first retry
waits `d`, second `2d`, …), and a unit that exhausts all `R` attempts
sleeps that schedule through attempt `R - 2`. -/
theorem backoff_schedule (f : Nat → CallOutcome) (d R k : Nat)
    (hfail : ∀ j, j < k → ∃ e, (f j).error = some e ∧ isRateLimitError e = true) :
    (k < R → (f k).error = none →
      (runRetries f d R).waits = (List.range k).map fun j => d * 2 ^ j) ∧
    (k = R → 1 ≤ R →
      (runRetries f d R).waits = (List.range (R - 1)).map fun j => d * 2 ^ j) := by
  constructor
  · intro hkR hsucc
    have h := retryAux_success f d k 0 R hkR
      (fun j hj => by rw [Nat.zero_add]; exact hfail j hj)
      (by rw [Nat.zero_add]; exact hsucc)
    simp [runRetries, h]
  · intro hkR hR
    subst hkR
    have h := retryAux_allfail f d k 0 hR
      (fun j hj => by rw [Nat.zero_add]; exact hfail j hj)
    simp [runRetries, h]

theorem backoff_schedule_witness :
    (runRetries fTransient 2 3).waits = [2] := by
  have hfail : ∀ j, j < 1 →
      ∃ e, (fTransient j).error = some e ∧ isRateLimitError e = true := by
    intro j hj
    have hj0 : j = 0 := by omega
    subst hj0
    exact ⟨"rate_limit hit", rfl, by decide⟩
  have h := (backoff_schedule fTransient 2 3 1 hfail).1 (by decide) rfl
  rw [h]
  decide

/-- C9: the price lookup is a total function; a model name present in
the table yields its own entry, and every unknown model name yields the
`claude-3-5-haiku-20241022` default entry, 0.25 per million input
tokens and 1.25 per million output tokens — never a failure. -/
theorem getPricing_total_with_fallback (modelName : String) :
    (∀ p, List.lookup modelName ModelPricing = some p →
      GetPricing modelName = p) ∧
    (List.lookup modelName ModelPricing = none →
      GetPricing modelName = ⟨1/4, 5/4⟩ ∧
      some (GetPricing modelName) =
        List.lookup "claude-3-5-haiku-20241022" ModelPricing) := by
  constructor
  · intro p hp
    simp [GetPricing, hp]
  · intro hm
    constructor
    · simp only [GetPricing, hm]
      rfl
    · simp only [GetPricing, hm]
      rfl

theorem getPricing_total_with_fallback_witness :
    GetPricing "gpt-4o" = ⟨1/4, 5/4⟩ :=
  ((getPricing_total_with_fallback "gpt-4o").2 (by decide)).1

/-- C10: whenever `analyzeChunk` returns a non-nil error its other
outputs are the zero values (empty analysis text, zero token counts);
and a nil error is returned only on the success path, carrying the
parsed response's first content block (or `""` if none) and its usage
counters, with HTTP status 200. -/
lemma analyzeChunk_cases (env : HttpEnv) :
    (∃ e, analyzeChunk env = ⟨"", 0, 0, some e⟩) ∨
    (∃ body resp, env.statusCode = 200 ∧
      env.readBodyRes = Except.ok body ∧
      env.unmarshal body = Except.ok resp ∧
      analyzeChunk env = ⟨resp.content.headD "", resp.usage_input_tokens,
        resp.usage_output_tokens, none⟩) := by
  rcases env with ⟨rf, ma, nr, dr, rb, sc, um⟩
  rcases rf with e | u
  · exact Or.inl ⟨_, rfl⟩
  rcases ma with e | u2
  · exact Or.inl ⟨_, rfl⟩
  rcases nr with e | u3
  · exact Or.inl ⟨_, rfl⟩
  rcases dr with e | u4
  · exact Or.inl ⟨_, rfl⟩
  rcases rb with e | body
  · exact Or.inl ⟨_, rfl⟩
  by_cases h200 : sc = 200
  · rcases hum : um body with e | resp
    · refine Or.inl ⟨"error parsing response: " ++ e, ?_⟩
      simp [analyzeChunk, h200, hum]
    · refine Or.inr ⟨body, resp, h200, rfl, hum, ?_⟩
      simp [analyzeChunk, h200, hum]
  · refine Or.inl ⟨"API error (status " ++ toString sc ++ "): " ++ body, ?_⟩
    simp only [analyzeChunk]
    rw [if_pos h200]

/-- C10: whenever `analyzeChunk` returns a non-nil error its other
outputs are the zero values (empty analysis text, zero token counts);
and a nil error is returned only on the success path, carrying the
parsed response's first content block's text (or `""` if there is
none) and its usage counters, with HTTP status 200. -/
theorem analyzeChunk_error_shape (env : HttpEnv) :
    ((analyzeChunk env).error ≠ none →
      (analyzeChunk env).analysis = "" ∧
      (analyzeChunk env).inputTokens = 0 ∧
      (analyzeChunk env).outputTokens = 0) ∧
    ((analyzeChunk env).error = none →
      env.statusCode = 200 ∧
      ∃ body resp, env.readBodyRes = Except.ok body ∧
        env.unmarshal body = Except.ok resp ∧
        (analyzeChunk env).analysis = resp.content.headD "" ∧
        (analyzeChunk env).inputTokens = resp.usage_input_tokens ∧
        (analyzeChunk env).outputTokens = resp.usage_output_tokens) := by
  rcases analyzeChunk_cases env with ⟨e, he⟩ | ⟨body, resp, hsc, hrb, hum, he⟩
  · rw [he]
    exact ⟨fun _ => ⟨rfl, rfl, rfl⟩, fun h => by simp at h⟩
  · rw [he]
    exact ⟨fun h => absurd rfl h,
      fun _ => ⟨hsc, body, resp, hrb, hum, rfl, rfl, rfl⟩⟩

def httpEnvOk : HttpEnv :=
  ⟨Except.ok (), Except.ok (), Except.ok (), Except.ok (),
   Except.ok "body", 200, fun _ => Except.ok ⟨["hi"], 7, 3⟩⟩

def httpEnvErr : HttpEnv :=
  ⟨Except.error "open chunk_1.pdf: no such file", Except.ok (), Except.ok (),
   Except.ok (), Except.ok "", 200, fun _ => Except.error "unexpected end"⟩

theorem analyzeChunk_error_shape_witness :
    httpEnvOk.statusCode = 200 ∧
    (analyzeChunk httpEnvErr).analysis = "" := by
  refine ⟨((analyzeChunk_error_shape httpEnvOk).2 rfl).1, ?_⟩
  exact ((analyzeChunk_error_shape httpEnvErr).1 (by simp [analyzeChunk, httpEnvErr])).1

/-- A run whose document reports zero pages and whose other setup steps
all succeed. -/
def envZeroPages : MainEnv :=
  ⟨["doc.pdf"], "key", true, Except.ok 0, Except.ok "/tmp/pdf-chunks",
   fun _ => Except.ok "", fun _ _ => CallOutcome.zero⟩

/-- C8 counterexample: with a zero-page document and every other setup
step succeeding, `main` does not abort — it runs the (empty) dispatch
to completion and exits 0, contradicting the claim that zero pages is a
fatal setup error with a non-zero exit. -/
theorem zero_pages_not_fatal :
    runMain envZeroPages =
      MainOutcome.completed (mkFullResult "doc.pdf" 0 [] []) ∧
    exitCode envZeroPages = 0 := by
  constructor <;> rfl

/-- C8 amended: a zero-page document is not treated as a setup error:
whenever the credential, file check, page count (= 0) and temp
directory succeed, `splitPDFIntoChunks` returns the empty chunk list,
the dispatcher runs an empty batch, and the program completes with an
empty `FullAnalysisResult` and exit code 0. -/
theorem zero_pages_completes (env : MainEnv) (tmp : String)
    (hargs : 1 ≤ env.args.length) (hkey : ¬env.apiKey = "")
    (hpdf : env.pdfExists = true) (hpages : env.pageCount = Except.ok 0)
    (htmp : env.mkTempDir = Except.ok tmp) :
    runMain env =
      MainOutcome.completed (mkFullResult (env.args.getD 0 "") 0 [] []) ∧
    exitCode env = 0 := by
  have hsplit : splitPDFIntoChunks env.extract chunkSize 0 = Except.ok [] := rfl
  have hrun : runMain env =
      MainOutcome.completed (mkFullResult (env.args.getD 0 "") 0 [] []) := by
    simp only [runMain, hpages, htmp, hsplit, hkey, hpdf]
    rw [if_neg (by omega)]
    simp [dispatchResults]
  exact ⟨hrun, by simp [exitCode, hrun]⟩

theorem zero_pages_completes_witness :
    runMain envZeroPages =
      MainOutcome.completed (mkFullResult (envZeroPages.args.getD 0 "") 0 [] []) ∧
    exitCode envZeroPages = 0 :=
  zero_pages_completes envZeroPages "/tmp/pdf-chunks" (by decide) (by decide)
    rfl rfl rfl

end DesignAnt
